import Mathlib

/-!
Verification of the measurement core of the opensearch-benchmark tuning module:
a shallow embedding of `osbenchmark/tuning/optimal_finder.py` (sweep executor,
benchmark subprocess runner, optimal selector) and of the bulk response
aggregator exercised by `tests/driver/runner_test.py`, together with proofs of
the specified properties.
-/

namespace OSB

/-- Per-sweep-point result record. The `Result` class lives in the external
collaborator module `osbenchmark.tuning.result`; it is embedded here at its
interface: the configuration fields and the accessors the optimal selector
reads (`success`, `error_rate`, `total_time`). Error rates are rationals,
total time an integer number of seconds. -/
structure Result where
  test_id : Nat
  batch_size : Nat
  bulk_size : Nat
  number_of_client : Nat
  success : Bool
  error_rate : ℚ
  total_time : Int
deriving DecidableEq

/-- Python's `sys.maxsize` on a 64-bit platform (2 ^ 63 - 1), the initial
running minimum in `find_optimal_result`. -/
def sysMaxsize : Int := 9223372036854775807

/-- Embedding of `get_successful_results` (optimal_finder.py lines 153-158):
keeps, in input order, exactly the results with `success` truthy and
`error_rate <= allowed_error_rate`. -/
def get_successful_results : List Result → ℚ → List Result
  | [], _ => []
  | r :: rs, allowed =>
    if r.success = true ∧ r.error_rate ≤ allowed then
      r :: get_successful_results rs allowed
    else
      get_successful_results rs allowed

/-- The loop of `find_optimal_result` (optimal_finder.py lines 161-168): the
first argument is the running minimum `total_time`, the second the current
`optimal`. -/
def findOptimalLoop : Int → Option Result → List Result → Option Result
  | _, optimal, [] => optimal
  | t, optimal, r :: rs =>
    if r.total_time < t then findOptimalLoop r.total_time (some r) rs
    else findOptimalLoop t optimal rs

/-- Embedding of `find_optimal_result`: the running minimum starts at
`sys.maxsize` and the optimal at `None`. -/
def find_optimal_result (results : List Result) : Option Result :=
  findOptimalLoop sysMaxsize none results

theorem get_successful_results_eq_filter (results : List Result) (allowed : ℚ) :
    get_successful_results results allowed =
      results.filter (fun r => r.success && decide (r.error_rate ≤ allowed)) := by
  induction results with
  | nil => rfl
  | cons r rs ih =>
    by_cases h : r.success = true ∧ r.error_rate ≤ allowed
    · simp only [get_successful_results, if_pos h, List.filter_cons, ih,
        Bool.and_eq_true, decide_eq_true_eq, h.1, h.2, and_self, if_pos]
    · have hb : ¬(r.success && decide (r.error_rate ≤ allowed)) = true := by
        simpa [Bool.and_eq_true, decide_eq_true_eq] using h
      simp only [get_successful_results, if_neg h, List.filter_cons, ih,
        if_neg hb]

/-- Full characterization of the scanning loop: either no element beats the
running minimum and the current optimal is returned unchanged, or the returned
element is the earliest occurrence of the minimum total time among elements
strictly below the running minimum. -/
theorem findOptimalLoop_spec (l : List Result) : ∀ (t : Int) (opt : Option Result),
    (findOptimalLoop t opt l = opt ∧ ∀ r ∈ l, t ≤ r.total_time) ∨
    (∃ m l₁ l₂, findOptimalLoop t opt l = some m ∧ l = l₁ ++ m :: l₂ ∧
      m.total_time < t ∧ (∀ x ∈ l₁, m.total_time < x.total_time) ∧
      (∀ x ∈ l₂, m.total_time ≤ x.total_time)) := by
  induction l with
  | nil =>
    intro t opt
    left
    exact ⟨rfl, by simp⟩
  | cons r rs ih =>
    intro t opt
    by_cases h : r.total_time < t
    · have hstep : findOptimalLoop t opt (r :: rs) =
          findOptimalLoop r.total_time (some r) rs := by
        simp only [findOptimalLoop, if_pos h]
      rcases ih r.total_time (some r) with ⟨heq, hall⟩ |
        ⟨m, l₁, l₂, heq, hsplit, hlt, h1, h2⟩
      · right
        exact ⟨r, [], rs, by rw [hstep, heq], by simp, h, by simp, hall⟩
      · right
        refine ⟨m, r :: l₁, l₂, by rw [hstep, heq], by simp [hsplit],
          lt_trans hlt h, ?_, h2⟩
        intro x hx
        rcases List.mem_cons.mp hx with hx | hx
        · rw [hx]; exact hlt
        · exact h1 x hx
    · have hstep : findOptimalLoop t opt (r :: rs) = findOptimalLoop t opt rs := by
        simp only [findOptimalLoop, if_neg h]
      push_neg at h
      rcases ih t opt with ⟨heq, hall⟩ | ⟨m, l₁, l₂, heq, hsplit, hlt, h1, h2⟩
      · left
        refine ⟨by rw [hstep, heq], ?_⟩
        intro x hx
        rcases List.mem_cons.mp hx with hx | hx
        · rw [hx]; exact h
        · exact hall x hx
      · right
        refine ⟨m, r :: l₁, l₂, by rw [hstep, heq], by simp [hsplit], hlt, ?_, h2⟩
        intro x hx
        rcases List.mem_cons.mp hx with hx | hx
        · rw [hx]; exact lt_of_lt_of_le hlt h
        · exact h1 x hx

/-- A successful, zero-error-rate result whose total time equals
`sys.maxsize`: it passes the admission filter but is never selected. -/
def resultAtMaxsize : Result :=
  ⟨0, 1, 1, 1, true, 0, sysMaxsize⟩

/-- C1 counterexample: `resultAtMaxsize` passes the filter (so the filtered
set is nonempty and has an earliest-seen minimal element), yet the optimal
selection returns none — contradicting the claim that none is returned only
when no Result passes the filter. -/
theorem c1_counterexample :
    get_successful_results [resultAtMaxsize] 0 = [resultAtMaxsize] ∧
    find_optimal_result (get_successful_results [resultAtMaxsize] 0) = none := by
  decide

/-- C1 (amended): the optimal selection considers exactly the Results with
`success = true` and error rate ≤ allowedErrorRate (inclusive boundary).
Among the filtered Results, it returns the earliest-seen one whose total time
is strictly smaller than every earlier candidate's total time and at most
every later candidate's (ties keep the earliest-seen), provided that total
time is strictly below `sys.maxsize`; it returns none exactly when every
filtered Result has total time ≥ `sys.maxsize` — in particular when no Result
passes the filter. -/
theorem optimal_selection_characterization (results : List Result) (allowed : ℚ) :
    get_successful_results results allowed =
      results.filter (fun r => r.success && decide (r.error_rate ≤ allowed)) ∧
    (find_optimal_result (get_successful_results results allowed) = none ↔
      ∀ r ∈ get_successful_results results allowed, sysMaxsize ≤ r.total_time) ∧
    (∀ m, find_optimal_result (get_successful_results results allowed) = some m →
      m.total_time < sysMaxsize ∧
      ∃ l₁ l₂, get_successful_results results allowed = l₁ ++ m :: l₂ ∧
        (∀ x ∈ l₁, m.total_time < x.total_time) ∧
        (∀ x ∈ l₂, m.total_time ≤ x.total_time)) := by
  refine ⟨get_successful_results_eq_filter results allowed, ?_, ?_⟩
  · constructor
    · intro hnone
      rcases findOptimalLoop_spec (get_successful_results results allowed)
        sysMaxsize none with ⟨_, hall⟩ | ⟨m, l₁, l₂, heq, _, _, _, _⟩
      · exact hall
      · rw [find_optimal_result] at hnone
        rw [hnone] at heq
        exact absurd heq (by simp)
    · intro hall
      rcases findOptimalLoop_spec (get_successful_results results allowed)
        sysMaxsize none with ⟨heq, _⟩ | ⟨m, l₁, l₂, heq, hsplit, hlt, _, _⟩
      · exact heq
      · have hm : m ∈ get_successful_results results allowed := by
          rw [hsplit]
          exact List.mem_append.mpr (Or.inr (List.mem_cons_self m l₂))
        exact absurd hlt (not_lt.mpr (hall m hm))
  · intro m hm
    rcases findOptimalLoop_spec (get_successful_results results allowed)
      sysMaxsize none with ⟨heq, _⟩ | ⟨m', l₁, l₂, heq, hsplit, hlt, h1, h2⟩
    · rw [find_optimal_result] at hm
      rw [hm] at heq
      exact absurd heq (by simp)
    · rw [find_optimal_result] at hm
      rw [hm] at heq
      have hmm : m' = m := (Option.some.inj heq).symm
      rw [hmm] at hsplit hlt h1 h2
      exact ⟨hlt, l₁, l₂, hsplit, h1, h2⟩

/-- C9: `find_optimal_result` initialises its running minimum to the
`sys.maxsize` sentinel and compares with strict less-than, so a Result whose
total time is at least `sys.maxsize` is never returned; in particular a
singleton list holding such a Result yields none. -/
theorem find_optimal_result_maxsize_sentinel :
    (∀ (results : List Result) (m : Result),
      find_optimal_result results = some m → m.total_time < sysMaxsize) ∧
    (∀ r : Result, sysMaxsize ≤ r.total_time → find_optimal_result [r] = none) := by
  constructor
  · intro results m hm
    rcases findOptimalLoop_spec results sysMaxsize none with ⟨heq, _⟩ |
      ⟨m', _, _, heq, _, hlt, _, _⟩
    · rw [find_optimal_result] at hm
      rw [hm] at heq
      exact absurd heq (by simp)
    · rw [find_optimal_result] at hm
      rw [hm] at heq
      rw [(Option.some.inj heq).symm] at hlt
      exact hlt
  · intro r hr
    show findOptimalLoop sysMaxsize none [r] = none
    simp only [findOptimalLoop, if_neg (not_lt.mpr hr)]

/-- One data row of the CSV results report: the "Metric" column used as the
row key plus the further columns the report carries ("Task", "Value",
"Unit"). -/
structure CsvRow where
  metric : String
  task : String
  value : String
  unit : String
deriving DecidableEq

/-- The TOTAL_TIME_KEY constant of optimal_finder.py. -/
def TOTAL_TIME_KEY : String := "Total time"

/-- Assignment `d[k] = v` on a Python dict embedded as an insertion-ordered
association list with unique keys: replace the value at an existing key in
place, else append the new binding. -/
def dictInsert : List (String × CsvRow) → String → CsvRow → List (String × CsvRow)
  | [], k, v => [(k, v)]
  | (k0, v0) :: rest, k, v =>
    if k0 = k then (k, v) :: rest else (k0, v0) :: dictInsert rest k v

/-- Lookup `d[k]` on the embedded dict. -/
def dictGet : List (String × CsvRow) → String → Option CsvRow
  | [], _ => none
  | (k0, v0) :: rest, k => if k0 = k then some v0 else dictGet rest k

/-- The synthetic total-time row injected by `run_batch_bulk_client_tests`
(optimal_finder.py line 118). -/
def totalTimeRow (total_time : Nat) : CsvRow :=
  ⟨TOTAL_TIME_KEY, "", toString total_time, "s"⟩

/-- Embedding of the metrics-mapping construction of
`run_batch_bulk_client_tests` (optimal_finder.py lines 113-118): each CSV row
is inserted keyed by its "Metric" column in file order, then the synthetic
total-time row is inserted under TOTAL_TIME_KEY. -/
def buildOutput (rows : List CsvRow) (total_time : Nat) : List (String × CsvRow) :=
  dictInsert (rows.foldl (fun d row => dictInsert d row.metric row) [])
    TOTAL_TIME_KEY (totalTimeRow total_time)

theorem dictGet_dictInsert (d : List (String × CsvRow)) (k k' : String) (v : CsvRow) :
    dictGet (dictInsert d k v) k' = if k' = k then some v else dictGet d k' := by
  induction d with
  | nil =>
    by_cases h : k' = k
    · subst h
      simp [dictInsert, dictGet]
    · simp [dictInsert, dictGet, h, Ne.symm h]
  | cons hd rest ih =>
    obtain ⟨k0, v0⟩ := hd
    by_cases hk : k0 = k
    · subst hk
      by_cases hk' : k' = k0
      · subst hk'
        simp [dictInsert, dictGet]
      · simp [dictInsert, dictGet, hk', Ne.symm hk']
    · by_cases hk0' : k0 = k'
      · subst hk0'
        simp [dictInsert, dictGet, hk, Ne.symm hk]
      · simp [dictInsert, dictGet, hk, hk0', ih]

theorem dictGet_foldl (rows : List CsvRow) :
    ∀ (d : List (String × CsvRow)) (k : String),
    dictGet (rows.foldl (fun d row => dictInsert d row.metric row) d) k =
      (rows.reverse.find? (fun r => r.metric == k)).or (dictGet d k) := by
  induction rows with
  | nil =>
    intro d k
    simp [Option.none_or]
  | cons row rest ih =>
    intro d k
    simp only [List.foldl_cons, List.reverse_cons, List.find?_append]
    rw [ih, dictGet_dictInsert, Option.or_assoc]
    congr 1
    by_cases h : row.metric = k
    · rw [List.find?_cons_of_pos _ (by simpa using h), if_pos h.symm]
      rfl
    · rw [List.find?_cons_of_neg _ (by simpa using h),
        if_neg (fun hk => h hk.symm)]
      rfl

/-- C10: in the per-sweep-point metrics mapping, rows are keyed by their
"Metric" column in file order, so for duplicate metric names the later CSV row
silently replaces the earlier one (lookup yields the last row in file order
with that metric name), and the key "Total time" always maps to the synthetic
total-time row injected afterwards, even when a CSV row carries that metric
name. -/
theorem buildOutput_lookup (rows : List CsvRow) (total_time : Nat) (k : String) :
    dictGet (buildOutput rows total_time) k =
      if k = TOTAL_TIME_KEY then some (totalTimeRow total_time)
      else rows.reverse.find? (fun r => r.metric == k) := by
  rw [buildOutput, dictGet_dictInsert]
  by_cases h : k = TOTAL_TIME_KEY
  · rw [if_pos h, if_pos h]
  · rw [if_neg h, if_neg h, dictGet_foldl]
    simp [dictGet, Option.or_none]

/-- Interactions with the child benchmark process, in program order. -/
inductive ProcEvent
  | popen
  | communicate
  | terminate
  | consoleInfo
  | wait
deriving DecidableEq

/-- Outcome of blocking on `proc.communicate()`: either the child exits with a
return code and captured stderr, or a KeyboardInterrupt arrives while the
caller is blocked on the child. -/
inductive CommOutcome
  | finished (returncode : Int) (stderr : String)
  | keyboardInterrupt
deriving DecidableEq

/-- Observable behaviour of one `run_benchmark` call: the ordered trace of
child-process interactions, the returned `(success, stderr)` pair when the
function returns normally, and whether a KeyboardInterrupt propagates to the
caller. -/
structure RunBenchmarkResult where
  events : List ProcEvent
  returned : Option (Bool × String)
  interruptRaised : Bool
deriving DecidableEq

/-- Embedding of `run_benchmark` (optimal_finder.py lines 72-91) as a function
of the communicate outcome. On normal completion it returns
`(returncode == 0, stderr)`. On KeyboardInterrupt the handler calls
`proc.terminate()`, prints a console message and re-raises the interrupt; the
source performs no wait on the terminated child. -/
def run_benchmark : CommOutcome → RunBenchmarkResult
  | .finished returncode stderr =>
    { events := [.popen, .communicate],
      returned := some (decide (returncode = 0), stderr),
      interruptRaised := false }
  | .keyboardInterrupt =>
    { events := [.popen, .communicate, .terminate, .consoleInfo],
      returned := none,
      interruptRaised := true }

/-- C7 counterexample: on KeyboardInterrupt, `run_benchmark` re-raises the
interrupt without ever waiting on (reaping) the terminated child — no wait
event occurs in its process-interaction trace. -/
theorem c7_counterexample :
    (run_benchmark CommOutcome.keyboardInterrupt).interruptRaised = true ∧
    ProcEvent.wait ∉ (run_benchmark CommOutcome.keyboardInterrupt).events := by
  decide

/-- C7 (amended): when a KeyboardInterrupt arrives while `run_benchmark` is
blocked on the child process, the child is terminated and the cancellation is
re-raised to the caller — never swallowed — but the child is not reaped: the
trace is exactly popen, communicate, terminate, console message, with no wait,
and the function does not return normally. -/
theorem run_benchmark_interrupt_behaviour :
    (run_benchmark CommOutcome.keyboardInterrupt).events =
      [ProcEvent.popen, ProcEvent.communicate, ProcEvent.terminate,
        ProcEvent.consoleInfo] ∧
    (run_benchmark CommOutcome.keyboardInterrupt).interruptRaised = true ∧
    (run_benchmark CommOutcome.keyboardInterrupt).returned = none := by
  exact ⟨rfl, rfl, rfl⟩

/-- Observable behaviour of one `run_batch_bulk_client_tests` call: whether a
KeyboardInterrupt propagates to the sweep driver, the arguments of the single
`result.set_output` call (success flag, total time, optional metrics mapping),
and whether `os.remove` ran on the temporary report file. -/
structure ExecResult where
  interruptRaised : Bool
  output : Option (Bool × Nat × Option (List (String × CsvRow)))
  fileRemoved : Bool
deriving DecidableEq

/-- Embedding of `run_batch_bulk_client_tests` (optimal_finder.py lines
98-126) as a function of the communicate outcome, whether the temporary report
file exists when the removal check runs, the elapsed whole seconds, and the
parsed CSV rows. The `finally` clause always records the elapsed time and
calls `set_output`: the success path parses the CSV into the metrics mapping
with the synthetic total-time row, every other path passes no metrics. The
file-removal statement sits after the `try/finally` block, so it runs only
when no exception propagates out of it. -/
def run_batch_bulk_client_tests (comm : CommOutcome) (fileExists : Bool)
    (elapsed : Nat) (rows : List CsvRow) : ExecResult :=
  match (run_benchmark comm).returned with
  | some (success, _stderr) =>
    if success then
      { interruptRaised := false,
        output := some (true, elapsed, some (buildOutput rows elapsed)),
        fileRemoved := fileExists }
    else
      { interruptRaised := false,
        output := some (false, elapsed, none),
        fileRemoved := fileExists }
  | none =>
    { interruptRaised := (run_benchmark comm).interruptRaised,
      output := some (false, elapsed, none),
      fileRemoved := false }

/-- C2 counterexample: when a KeyboardInterrupt propagates out of the
subprocess run, the temporary report file exists but is not removed — the
cleanup statement is skipped on the cancellation path. -/
theorem c2_counterexample :
    (run_batch_bulk_client_tests CommOutcome.keyboardInterrupt true 5 []).interruptRaised
        = true ∧
    (run_batch_bulk_client_tests CommOutcome.keyboardInterrupt true 5 []).fileRemoved
        = false := by
  decide

/-- C2 (amended): the temporary CSV report file is deleted if it exists on
both normal exit paths — subprocess success and subprocess failure — but on
external cancellation (KeyboardInterrupt) the removal statement, which sits
after the `try/finally` block rather than inside it, is never reached, so the
file is not deleted there. -/
theorem temp_file_cleanup (returncode : Int) (stderr : String)
    (fileExists : Bool) (elapsed : Nat) (rows : List CsvRow) :
    (run_batch_bulk_client_tests (CommOutcome.finished returncode stderr)
        fileExists elapsed rows).fileRemoved = fileExists ∧
    (run_batch_bulk_client_tests CommOutcome.keyboardInterrupt
        fileExists elapsed rows).fileRemoved = false := by
  constructor
  · by_cases h : returncode = 0 <;>
      simp [run_batch_bulk_client_tests, run_benchmark, h]
  · rfl

/-- C8: for every sweep point whose benchmark subprocess exits non-zero,
`run_batch_bulk_client_tests` returns normally (no exception reaches the
sweep driver) with a Result carrying success = false, the elapsed wall-clock
seconds, and no metrics mapping — the elapsed time is recorded on the failure
path just as on the success path. -/
theorem subprocess_failure_result (returncode : Int) (stderr : String)
    (fileExists : Bool) (elapsed : Nat) (rows : List CsvRow)
    (h : returncode ≠ 0) :
    run_batch_bulk_client_tests (CommOutcome.finished returncode stderr)
        fileExists elapsed rows =
      { interruptRaised := false,
        output := some (false, elapsed, none),
        fileRemoved := fileExists } := by
  simp [run_batch_bulk_client_tests, run_benchmark, h]

/-- Witness for C8 at returncode 1. -/
theorem subprocess_failure_result_witness :
    run_batch_bulk_client_tests (CommOutcome.finished 1 "benchmark failed")
        true 7 [] =
      { interruptRaised := false,
        output := some (false, 7, none),
        fileRemoved := true } :=
  subprocess_failure_result 1 "benchmark failed" true 7 [] (by decide)

/-- Sanity check of the success path: the metrics mapping is built from the
CSV rows and the synthetic total-time row, the elapsed time is recorded, and
the temporary file is removed. -/
theorem subprocess_success_result (stderr : String) (fileExists : Bool)
    (elapsed : Nat) (rows : List CsvRow) :
    run_batch_bulk_client_tests (CommOutcome.finished 0 stderr)
        fileExists elapsed rows =
      { interruptRaised := false,
        output := some (true, elapsed, some (buildOutput rows elapsed)),
        fileRemoved := fileExists } := by
  simp [run_batch_bulk_client_tests, run_benchmark]

/-- Shard-outcome signature of one bulk item: the (total, successful, failed)
replica-count triple. -/
structure Shards where
  total : Nat
  successful : Nat
  failed : Nat
deriving DecidableEq

/-- One per-item outcome in a bulk response: the operation kind (the single
key of the item record), the status code, the shard signature and the outcome
label. -/
structure BulkItem where
  opKind : String
  status : Nat
  shards : Shards
  result : String
deriving DecidableEq

/-- A decoded bulk response: the top-level error flag and the ordered item
sequence (empty when items are absent). -/
structure BulkResponse where
  errors : Bool
  items : List BulkItem
deriving DecidableEq

/-- Request metadata of one bulk call: body lines, whether action-metadata
lines are interleaved, the declared item count ("bulk-size"), optional target
index and document type, and the detailed-results flag. -/
structure BulkRequest where
  body : List String
  actionMetadataPresent : Bool
  bulkSize : Nat
  index : Option String
  docType : Option String
  detailedResults : Bool
deriving DecidableEq

/-- Per-operation-kind statistics of the detailed breakdown: the item count
and the insertion-ordered outcome-label sub-counts. -/
structure OpStats where
  itemCount : Nat
  outcomes : List (String × Nat)
deriving DecidableEq

/-- One entry of the shard-outcome histogram: an item count and the shared
shard signature. -/
structure HistEntry where
  itemCount : Nat
  shards : Shards
deriving DecidableEq

/-- The aggregator's normalized statistics record. -/
structure BulkOutcome where
  weight : Nat
  unit : String
  success : Bool
  errorCount : Nat
  index : Option String
  ops : Option (List (String × OpStats))
  shardsHistogram : Option (List HistEntry)
deriving DecidableEq

/-- Modelled from the spec: the 2xx success range for per-item status codes of
the Bulk Response Aggregator, whose source is not under src/. -/
def statusOk (status : Nat) : Bool :=
  decide (200 ≤ status) && decide (status < 300)

/-- Modelled from the spec: increment one outcome label's sub-count in the
insertion-ordered label-count list, appending a fresh entry when unseen. -/
def bumpLabel : List (String × Nat) → String → List (String × Nat)
  | [], label => [(label, 1)]
  | (l, c) :: rest, label =>
    if l = label then (l, c + 1) :: rest else (l, c) :: bumpLabel rest label

/-- Modelled from the spec: the operation-breakdown update for one item of the
Bulk Response Aggregator — increment the operation kind's item count and its
outcome-label sub-count, appending a fresh group when the kind is unseen
(first-seen kind order). -/
def updateOps : List (String × OpStats) → String → String → List (String × OpStats)
  | [], kind, label => [(kind, ⟨1, [(label, 1)]⟩)]
  | (k, st) :: rest, kind, label =>
    if k = kind then (k, ⟨st.itemCount + 1, bumpLabel st.outcomes label⟩) :: rest
    else (k, st) :: updateOps rest kind label

/-- Modelled from the spec: the shard-outcome histogram update for one item of
the Bulk Response Aggregator — match the exact signature against previously
seen signatures in first-seen order, incrementing that signature's item count,
or append a new entry when the signature is unseen. -/
def updateHistogram : List HistEntry → Shards → List HistEntry
  | [], s => [⟨1, s⟩]
  | e :: rest, s =>
    if e.shards = s then ⟨e.itemCount + 1, e.shards⟩ :: rest
    else e :: updateHistogram rest s

/-- Running state of the aggregator's single pass over the response items. -/
structure DetailState where
  errorCount : Nat
  ops : List (String × OpStats)
  hist : List HistEntry

/-- Modelled from the spec: one iteration of the Bulk Response Aggregator's
item loop — count an error when the status code lies outside the 2xx range,
and, only when the detailed breakdown is enabled, update the operation
breakdown and the shard histogram. -/
def aggregateStep (detailed : Bool) (st : DetailState) (item : BulkItem) :
    DetailState :=
  let ec := if statusOk item.status then st.errorCount else st.errorCount + 1
  if detailed then
    ⟨ec, updateOps st.ops item.opKind item.result,
      updateHistogram st.hist item.shards⟩
  else
    ⟨ec, st.ops, st.hist⟩

/-- Modelled from the spec: the Bulk Response Aggregator
(`esrally.driver.runner.BulkIndex` response handling), whose source is not
under src/ — only its tests in `tests/driver/runner_test.py` are. If the
top-level error flag is false it returns immediately with weight = declared
item count, unit "docs", success, zero errors, the request's index and no
breakdown, regardless of the detailed-results flag; otherwise it scans the
items once, counting status codes outside the 2xx range and, when the
detailed-results flag is set, building the operation breakdown and the
shard-outcome histogram; success is then (error count == 0). -/
def aggregate (response : BulkResponse) (request : BulkRequest) : BulkOutcome :=
  if response.errors = false then
    { weight := request.bulkSize, unit := "docs", success := true,
      errorCount := 0, index := request.index,
      ops := none, shardsHistogram := none }
  else
    let st := response.items.foldl (aggregateStep request.detailedResults)
      ⟨0, [], []⟩
    { weight := request.bulkSize, unit := "docs",
      success := decide (st.errorCount = 0), errorCount := st.errorCount,
      index := request.index,
      ops := if request.detailedResults then some st.ops else none,
      shardsHistogram := if request.detailedResults then some st.hist else none }

/-- C3: for every bulk response whose top-level error flag is false, the
aggregator returns weight = the request's declared bulk-size (never the raw
body line count — the body does not enter the outcome), unit "docs",
success = true, error count 0, index = the request's declared index or
absent, and no operation breakdown or shard histogram — regardless of the
detailed-results flag and regardless of item contents. -/
theorem aggregate_no_errors (items : List BulkItem) (request : BulkRequest) :
    aggregate ⟨false, items⟩ request =
      { weight := request.bulkSize, unit := "docs", success := true,
        errorCount := 0, index := request.index,
        ops := none, shardsHistogram := none } := by
  rfl

theorem foldl_aggregateStep_errorCount (detailed : Bool) (items : List BulkItem) :
    ∀ st : DetailState,
    (items.foldl (aggregateStep detailed) st).errorCount =
      st.errorCount + items.countP (fun i => !statusOk i.status) := by
  induction items with
  | nil =>
    intro st
    simp
  | cons i rest ih =>
    intro st
    rw [List.foldl_cons, ih, List.countP_cons]
    have hec : (aggregateStep detailed st i).errorCount =
        if statusOk i.status then st.errorCount else st.errorCount + 1 := by
      cases detailed <;> simp [aggregateStep]
    rw [hec]
    by_cases h : statusOk i.status
    · simp [h]
    · simp only [h, Bool.not_false, if_neg, ite_true, Bool.false_eq_true,
        if_false]
      omega

/-- C4: for every bulk response whose top-level error flag is true, the
aggregator's error count equals the number of response items whose status
code lies outside the 2xx success range — independent of each item's
operation outcome label and of the detailed-results flag. -/
theorem aggregate_error_count (items : List BulkItem) (request : BulkRequest) :
    (aggregate ⟨true, items⟩ request).errorCount =
      items.countP (fun i => !statusOk i.status) := by
  have h : (aggregate ⟨true, items⟩ request).errorCount =
      (items.foldl (aggregateStep request.detailedResults)
        ⟨0, [], []⟩).errorCount := rfl
  rw [h, foldl_aggregateStep_errorCount]
  simp

/-- Sanity check replicating `test_bulk_index_error`: statuses 201, 500, 404
yield error count 2, success false, weight 3, unit "docs", index "test". -/
theorem bulk_index_error_test :
    aggregate
      ⟨true, [⟨"index", 201, ⟨2, 1, 0⟩, ""⟩, ⟨"index", 500, ⟨2, 0, 2⟩, ""⟩,
        ⟨"index", 404, ⟨2, 0, 2⟩, ""⟩]⟩
      ⟨["action_meta_data", "index_line", "action_meta_data", "index_line",
        "action_meta_data", "index_line"], true, 3, some "test", none, false⟩ =
      ⟨3, "docs", false, 2, some "test", none, none⟩ := by
  decide

/-- Sanity check replicating `test_bulk_index_success_with_metadata`: error
flag false and three declared documents yield weight 3, unit "docs", success,
zero errors and no index. -/
theorem bulk_index_success_test :
    aggregate ⟨false, []⟩
      ⟨["action_meta_data", "index_line", "action_meta_data", "index_line",
        "action_meta_data", "index_line"], true, 3, none, none, false⟩ =
      ⟨3, "docs", true, 0, none, none, none⟩ := by
  decide

/-- A bulk response whose top-level error flag is set although every item's
status code is in the 2xx range. -/
def allOkErrorFlagResponse : BulkResponse :=
  ⟨true, [⟨"index", 200, ⟨2, 1, 0⟩, "updated"⟩]⟩

/-- C5 counterexample: with the error flag set but every item status in the
2xx range, the aggregator counts zero errors and reports success — the
overall success flag is not the negation of the response-level error flag. -/
theorem c5_counterexample :
    allOkErrorFlagResponse.errors = true ∧
    (aggregate allOkErrorFlagResponse
      ⟨["action_meta_data", "index_line"], true, 1, none, none, false⟩).success
        = true := by
  decide

/-- C5 (amended): the aggregator's overall success flag equals
(error count == 0): it is true iff the response-level error flag is clear or
every item's status code lies in the 2xx success range. In particular a
response with the error flag set whose items are all 2xx is reported as
successful, and a response with the error flag clear is always successful. -/
theorem aggregate_success_iff (response : BulkResponse) (request : BulkRequest) :
    ((aggregate response request).success = true ↔
      (aggregate response request).errorCount = 0) ∧
    ((aggregate response request).success = true ↔
      (response.errors = false ∨ ∀ i ∈ response.items, statusOk i.status = true)) := by
  obtain ⟨errors, items⟩ := response
  cases errors
  · constructor
    · simp [aggregate]
    · simp [aggregate]
  · have hs : (aggregate ⟨true, items⟩ request).success =
        decide ((aggregate ⟨true, items⟩ request).errorCount = 0) := rfl
    constructor
    · rw [hs]
      simp
    · rw [hs, aggregate_error_count]
      simp [List.countP_eq_zero]

/-- The first-occurrence subsequence of a list of signatures: each distinct
signature exactly once, in the order of its first occurrence. Reference
function for stating the histogram's ordering contract. -/
def firstSeen : List Shards → List Shards
  | [] => []
  | s :: rest => s :: (firstSeen rest).filter (fun t => decide (t ≠ s))

theorem mem_firstSeen (s : Shards) (l : List Shards) :
    s ∈ firstSeen l ↔ s ∈ l := by
  induction l with
  | nil => simp [firstSeen]
  | cons a rest ih =>
    simp only [firstSeen, List.mem_cons, List.mem_filter, decide_eq_true_eq]
    by_cases h : s = a
    · simp [h]
    · simp [h, ih]

theorem firstSeen_nodup (l : List Shards) : (firstSeen l).Nodup := by
  induction l with
  | nil => simp [firstSeen]
  | cons a rest ih =>
    rw [firstSeen, List.nodup_cons]
    refine ⟨?_, ih.filter _⟩
    intro hmem
    have := (List.mem_filter.mp hmem).2
    simp at this

theorem firstSeen_append_singleton (l : List Shards) (s : Shards) :
    firstSeen (l ++ [s]) =
      if s ∈ l then firstSeen l else firstSeen l ++ [s] := by
  induction l with
  | nil => simp [firstSeen]
  | cons a rest ih =>
    by_cases hmem : s ∈ rest
    · rw [List.cons_append, firstSeen, ih, if_pos hmem, firstSeen,
        if_pos (List.mem_cons_of_mem a hmem)]
    · by_cases hsa : s = a
      · subst hsa
        rw [List.cons_append, firstSeen, ih, if_neg hmem,
          List.filter_append, if_pos (List.mem_cons_self s rest), firstSeen]
        simp
      · rw [List.cons_append, firstSeen, ih, if_neg hmem, List.filter_append,
          if_neg (by simp [hsa, hmem]), firstSeen, List.cons_append]
        simp [hsa]

theorem updateHistogram_shards (h : List HistEntry) (s : Shards) :
    (updateHistogram h s).map (fun e => e.shards) =
      if s ∈ h.map (fun e => e.shards) then h.map (fun e => e.shards)
      else h.map (fun e => e.shards) ++ [s] := by
  induction h with
  | nil => simp [updateHistogram]
  | cons e rest ih =>
    by_cases he : e.shards = s
    · rw [updateHistogram, if_pos he]
      simp [he]
    · by_cases hm : s ∈ rest.map (fun e => e.shards)
      · rw [updateHistogram, if_neg he, List.map_cons, ih, if_pos hm,
          List.map_cons, if_pos (by simp [hm])]
      · rw [updateHistogram, if_neg he, List.map_cons, ih, if_neg hm,
          List.map_cons,
          if_neg (by simp only [List.mem_cons, not_or]; exact ⟨Ne.symm he, hm⟩)]
        simp

theorem updateHistogram_sum (h : List HistEntry) (s : Shards) :
    ((updateHistogram h s).map (fun e => e.itemCount)).sum =
      (h.map (fun e => e.itemCount)).sum + 1 := by
  induction h with
  | nil => simp [updateHistogram]
  | cons e rest ih =>
    by_cases he : e.shards = s
    · rw [updateHistogram, if_pos he]
      simp
      omega
    · rw [updateHistogram, if_neg he]
      simp [ih]
      omega

theorem updateHistogram_entries (h : List HistEntry) (s : Shards)
    (hnd : (h.map (fun e => e.shards)).Nodup) :
    ∀ e' ∈ updateHistogram h s,
      (e' ∈ h ∧ e'.shards ≠ s) ∨
      (∃ e ∈ h, e.shards = s ∧ e' = ⟨e.itemCount + 1, s⟩) ∨
      (e' = ⟨1, s⟩ ∧ s ∉ h.map (fun e => e.shards)) := by
  induction h with
  | nil =>
    intro e' he'
    rw [updateHistogram] at he'
    right; right
    refine ⟨?_, by simp⟩
    simpa using he'
  | cons e rest ih =>
    intro e' he'
    by_cases hes : e.shards = s
    · rw [updateHistogram, if_pos hes] at he'
      rcases List.mem_cons.mp he' with h1 | h1
      · right; left
        exact ⟨e, List.mem_cons_self e rest, hes, by rw [h1, hes]⟩
      · left
        refine ⟨List.mem_cons_of_mem e h1, ?_⟩
        intro hc
        have hin : e.shards ∈ rest.map (fun e => e.shards) := by
          rw [hes, ← hc]
          exact List.mem_map_of_mem _ h1
        exact (List.nodup_cons.mp (by simpa using hnd)).1 hin
    · rw [updateHistogram, if_neg hes] at he'
      rcases List.mem_cons.mp he' with h1 | h1
      · left
        refine ⟨by rw [h1]; exact List.mem_cons_self e rest, ?_⟩
        rw [h1]
        exact hes
      · have hnd' : (rest.map (fun e => e.shards)).Nodup :=
          (List.nodup_cons.mp (by simpa using hnd)).2
        rcases ih hnd' e' h1 with ⟨hm, hne⟩ | ⟨e2, hm, he2, heq⟩ | ⟨heq, hnm⟩
        · exact Or.inl ⟨List.mem_cons_of_mem e hm, hne⟩
        · exact Or.inr (Or.inl ⟨e2, List.mem_cons_of_mem e hm, he2, heq⟩)
        · refine Or.inr (Or.inr ⟨heq, ?_⟩)
          simp only [List.map_cons, List.mem_cons]
          rintro (hc | hc)
          · exact hes hc.symm
          · exact hnm hc

/-- Loop invariant of the shard-histogram construction: after processing the
signature sequence `pre`, the histogram lists the distinct signatures of
`pre` in first-occurrence order, each entry counts that signature's
occurrences in `pre`, and the entry counts sum to the length of `pre`. -/
def HistInv (pre : List Shards) (h : List HistEntry) : Prop :=
  h.map (fun e => e.shards) = firstSeen pre ∧
  (∀ e ∈ h, e.itemCount = pre.countP (fun t => decide (t = e.shards))) ∧
  (h.map (fun e => e.itemCount)).sum = pre.length

theorem histInv_step (pre : List Shards) (h : List HistEntry) (s : Shards)
    (inv : HistInv pre h) : HistInv (pre ++ [s]) (updateHistogram h s) := by
  obtain ⟨hsh, hcnt, hsum⟩ := inv
  have hnd : (h.map (fun e => e.shards)).Nodup := by
    rw [hsh]
    exact firstSeen_nodup pre
  have hmem : s ∈ h.map (fun e => e.shards) ↔ s ∈ pre := by
    rw [hsh]
    exact mem_firstSeen s pre
  refine ⟨?_, ?_, ?_⟩
  · rw [updateHistogram_shards, firstSeen_append_singleton, hsh]
    by_cases hm : s ∈ pre
    · rw [if_pos ((mem_firstSeen s pre).mpr hm), if_pos hm]
    · rw [if_neg (fun hc => hm ((mem_firstSeen s pre).mp hc)), if_neg hm]
  · intro e' he'
    rcases updateHistogram_entries h s hnd e' he' with
      ⟨hm, hne⟩ | ⟨e, hm, hes, heq⟩ | ⟨heq, hnm⟩
    · rw [hcnt e' hm, List.countP_append]
      have hzero : List.countP (fun t => decide (t = e'.shards)) [s] = 0 := by
        simp [Ne.symm hne]
      rw [hzero]
      rfl
    · rw [heq, List.countP_append]
      have h1 : (⟨e.itemCount + 1, s⟩ : HistEntry).shards = s := rfl
      rw [h1]
      have h2 : List.countP (fun t => decide (t = s)) [s] = 1 := by simp
      rw [h2]
      have h3 : (⟨e.itemCount + 1, s⟩ : HistEntry).itemCount = e.itemCount + 1 := rfl
      rw [h3, hcnt e hm, hes]
    · rw [heq]
      have hnp : s ∉ pre := fun hc => hnm (hmem.mpr hc)
      have h0 : List.countP (fun t => decide (t = s)) pre = 0 := by
        rw [List.countP_eq_zero]
        intro t ht
        simp only [decide_eq_true_eq]
        intro hc
        exact hnp (hc ▸ ht)
      have h2 : List.countP (fun t => decide (t = s)) [s] = 1 := by simp
      have h1 : (⟨1, s⟩ : HistEntry).shards = s := rfl
      rw [h1, List.countP_append, h0, h2]
  · rw [updateHistogram_sum, hsum, List.length_append]
    rfl

theorem histInv_foldl (ss : List Shards) :
    ∀ (pre : List Shards) (h : List HistEntry), HistInv pre h →
    HistInv (pre ++ ss) (ss.foldl updateHistogram h) := by
  induction ss with
  | nil =>
    intro pre h inv
    simpa using inv
  | cons s rest ih =>
    intro pre h inv
    have hstep := ih (pre ++ [s]) (updateHistogram h s) (histInv_step pre h s inv)
    rw [List.foldl_cons]
    have harr : pre ++ [s] ++ rest = pre ++ s :: rest := by
      simp
    rw [harr] at hstep
    exact hstep

theorem foldl_aggregateStep_hist (items : List BulkItem) :
    ∀ st : DetailState,
    (items.foldl (aggregateStep true) st).hist =
      (items.map (fun i => i.shards)).foldl updateHistogram st.hist := by
  induction items with
  | nil =>
    intro st
    rfl
  | cons i rest ih =>
    intro st
    rw [List.foldl_cons, ih, List.map_cons, List.foldl_cons]
    rfl

/-- C6: for every bulk response processed with the detailed breakdown enabled,
the shard-outcome histogram groups items by exact (total, successful, failed)
signature equality, lists the distinct signature groups in the order each
signature first occurs in the response's item sequence (each signature exactly
once), each group's item-count is the number of items bearing that signature,
and the groups' item-counts sum to the total number of response items. -/
theorem aggregate_shards_histogram (items : List BulkItem)
    (request : BulkRequest) (hd : request.detailedResults = true) :
    ∃ hist, (aggregate ⟨true, items⟩ request).shardsHistogram = some hist ∧
      hist.map (fun e => e.shards) = firstSeen (items.map (fun i => i.shards)) ∧
      (hist.map (fun e => e.shards)).Nodup ∧
      (∀ e ∈ hist, e.itemCount =
        items.countP (fun i => decide (i.shards = e.shards))) ∧
      (hist.map (fun e => e.itemCount)).sum = items.length := by
  have hinv : HistInv (items.map (fun i => i.shards))
      ((items.map (fun i => i.shards)).foldl updateHistogram []) := by
    have hbase : HistInv [] [] := ⟨rfl, by simp, rfl⟩
    have := histInv_foldl (items.map (fun i => i.shards)) [] [] hbase
    simpa using this
  obtain ⟨hsh, hcnt, hsum⟩ := hinv
  refine ⟨(items.map (fun i => i.shards)).foldl updateHistogram [], ?_, hsh,
    ?_, ?_, ?_⟩
  · have hrepr : (aggregate ⟨true, items⟩ request).shardsHistogram =
        if request.detailedResults then
          some ((items.foldl (aggregateStep request.detailedResults)
            ⟨0, [], []⟩).hist)
        else none := rfl
    rw [hrepr, hd, if_pos rfl, foldl_aggregateStep_hist]
  · rw [hsh]
    exact firstSeen_nodup _
  · intro e he
    rw [hcnt e he, List.countP_map]
    rfl
  · rw [hsum, List.length_map]

/-- The six response items of `test_mixed_bulk_with_detailed_stats`. -/
def mixedItems : List BulkItem :=
  [⟨"index", 201, ⟨2, 1, 0⟩, "created"⟩,
   ⟨"update", 200, ⟨2, 1, 0⟩, "updated"⟩,
   ⟨"index", 500, ⟨2, 0, 2⟩, "noop"⟩,
   ⟨"index", 500, ⟨2, 1, 1⟩, "noop"⟩,
   ⟨"index", 201, ⟨2, 1, 0⟩, "created"⟩,
   ⟨"update", 404, ⟨2, 0, 2⟩, "noop"⟩]

/-- The bulk request of `test_mixed_bulk_with_detailed_stats`: six declared
documents, detailed results enabled, index "test". -/
def mixedRequest : BulkRequest :=
  ⟨["action_meta_data", "index_line", "action_meta_data", "update_line",
    "action_meta_data", "index_line", "action_meta_data", "index_line",
    "action_meta_data", "index_line", "action_meta_data", "update_line"],
   true, 6, some "test", none, true⟩

/-- Witness for C6 at the detailed mixed-bulk test input. -/
theorem aggregate_shards_histogram_witness :
    ∃ hist, (aggregate ⟨true, mixedItems⟩ mixedRequest).shardsHistogram
        = some hist ∧
      hist.map (fun e => e.shards)
        = firstSeen (mixedItems.map (fun i => i.shards)) ∧
      (hist.map (fun e => e.shards)).Nodup ∧
      (∀ e ∈ hist, e.itemCount =
        mixedItems.countP (fun i => decide (i.shards = e.shards))) ∧
      (hist.map (fun e => e.itemCount)).sum = mixedItems.length :=
  aggregate_shards_histogram mixedItems mixedRequest rfl

/-- Sanity check replicating `test_mixed_bulk_with_detailed_stats` in full:
weight 6, unit "docs", success false, error count 3, index "test", the
operation breakdown {index: 4 items (2 created, 2 noop), update: 2 items
(1 updated, 1 noop)} in first-seen kind order, and the shard histogram
[3 of (2,1,0), 2 of (2,0,2), 1 of (2,1,1)] in first-seen signature order. -/
theorem mixed_bulk_detailed_test :
    aggregate ⟨true, mixedItems⟩ mixedRequest =
      ⟨6, "docs", false, 3, some "test",
        some [("index", ⟨4, [("created", 2), ("noop", 2)]⟩),
              ("update", ⟨2, [("updated", 1), ("noop", 1)]⟩)],
        some [⟨3, ⟨2, 1, 0⟩⟩, ⟨2, ⟨2, 0, 2⟩⟩, ⟨1, ⟨2, 1, 1⟩⟩]⟩ := by
  decide

end OSB
